import Mathlib

/-!
# The bridge_batch ORM of bridge-history-api

A shallow embedding of `bridge-history-api/db/orm/batch_chunk.go`.

The Go file is a thin layer over a relational table: every function builds one
SQL statement, hands it to the `sqlx` handle and maps the outcome to a Go
result.  The embedding therefore has two layers.

* The storage layer: the `bridge_batch` table is a list of `Row`s in scan
  order, and each SQL statement of the source is a function on that list
  (`WHERE` is a filter, `ORDER BY batch_index DESC LIMIT 1` is a stable sort
  followed by taking one row, `UPDATE ... SET` is a map).  A statement can fail
  for reasons outside the table (connectivity, constraints); this is an
  explicit `fault` argument so that every theorem can say for which faults it
  holds.  Before a statement runs, `database/sql` converts its arguments and
  refuses a `uint64` with the high bit set; this is `convertArgs`.
* The Go layer: the six methods of `bridgeBatchOrm`, with Go's
  `(*BridgeBatch, error)` results as pairs of options.

Unsigned 64 bit fields are natural numbers: the source does no arithmetic on
them, so no wrap-around can occur; the only place where their size matters is
the argument conversion.  `messages` holds non-nil pointers.
-/

namespace Orm

/-! ## Data model -/

/-- BatchStatus is `type BatchStatus int`: any integer is a value of it. -/
abbrev BatchStatus := Int

/-- BatchWithoutProof is the first `iota` constant. -/
def BatchWithoutProof : BatchStatus := 0

/-- BatchWithProof is the second `iota` constant. -/
def BatchWithProof : BatchStatus := 1

/-- BridgeBatch is the Go struct; the default of every field is Go's zero
value, so `{}` is `&BridgeBatch{}`. -/
structure BridgeBatch where
  ID : Nat := 0
  BatchIndex : Nat := 0
  BatchHash : String := ""
  Height : Nat := 0
  StartBlockNumber : Nat := 0
  EndBlockNumber : Nat := 0
  Status : BatchStatus := 0
deriving DecidableEq, Repr

/-- Row is one stored row of table `bridge_batch`, named by its columns (the
`db:"..."` tags of the struct). -/
structure Row where
  id : Nat
  batch_index : Nat
  batch_hash : String
  height : Nat
  start_block_number : Nat
  end_block_number : Nat
  status : BatchStatus
deriving DecidableEq, Repr

/-- Column names of `bridge_batch`. -/
inductive Column where
  | id
  | batch_index
  | batch_hash
  | height
  | start_block_number
  | end_block_number
  | status
deriving DecidableEq, Repr

/-- DbError is an `error` value coming out of `database/sql`: the sentinel
`sql.ErrNoRows`, the error `sql: converting argument $n type: uint64 values with
high bit set are not supported` for the argument of ordinal `n`, or any other
storage failure. -/
inductive DbError where
  | ErrNoRows
  | convertArg (ordinal : Nat)
  | storage (code : Nat)
deriving DecidableEq, Repr

/-- Arg is a Go value bound to a placeholder of a statement: a `uint64`, a
`BatchStatus` (an `int`) or a `string`. -/
inductive Arg where
  | uint64 (v : Nat)
  | int (v : Int)
  | string (s : String)
deriving DecidableEq, Repr

/-- Modelled from the spec: the schema of `bridge_batch` is not part of the
source file; the insert statement does not bind `status`, and the spec says the
storage default of that column is `WithoutProof`. -/
def statusColumnDefault : BatchStatus := BatchWithoutProof

/-! ## Storage layer: the SQL statements of the source -/

/-- Binds one selected column of a row to the struct field carrying its `db`
tag. -/
def bindColumn (r : Row) (dst : BridgeBatch) : Column → BridgeBatch
  | .id => { dst with ID := r.id }
  | .batch_index => { dst with BatchIndex := r.batch_index }
  | .batch_hash => { dst with BatchHash := r.batch_hash }
  | .height => { dst with Height := r.height }
  | .start_block_number => { dst with StartBlockNumber := r.start_block_number }
  | .end_block_number => { dst with EndBlockNumber := r.end_block_number }
  | .status => { dst with Status := r.status }

/-- StructScan writes the selected columns into `dst`; a field whose column is
not selected keeps the value it had. -/
def StructScan (cols : List Column) (r : Row) (dst : BridgeBatch) : BridgeBatch :=
  cols.foldl (bindColumn r) dst

/-- The argument conversion `database/sql` performs before a statement reaches
the driver: the arguments are converted in order, counted from `ordinal`, and the
first `uint64` with the high bit set is refused.  An `int` and a `string` always
convert. -/
def convertArgs : Nat → List Arg → Option DbError
  | _, [] => none
  | ordinal, .uint64 v :: rest =>
    if 2 ^ 63 ≤ v then some (DbError.convertArg ordinal) else convertArgs (ordinal + 1) rest
  | ordinal, .int _ :: rest => convertArgs (ordinal + 1) rest
  | ordinal, .string _ :: rest => convertArgs (ordinal + 1) rest

/-- QueryRowx with the bound arguments and the later scan.  A storage fault
(`fault`: no connection, a failed transaction, a failure of the driver) is
reported as is; `database/sql` obtains the connection before it converts the
arguments, so such a fault does not depend on them.  Otherwise an argument that
does not convert is reported, and the statement does not run.  Otherwise the
first row of the result set is scanned, and with no row the scan reports
`sql.ErrNoRows`. -/
def QueryRowx (fault : Option DbError) (args : List Arg) (resultSet : List Row) :
    Except DbError Row :=
  match fault with
  | some e => .error e
  | none =>
    match convertArgs 1 args with
    | some e => .error e
    | none =>
      match resultSet with
      | [] => .error DbError.ErrNoRows
      | r :: _ => .ok r

/-- The clause `ORDER BY batch_index DESC`: a stable descending sort. -/
def orderByBatchIndexDesc (rows : List Row) : List Row :=
  rows.insertionSort (fun a b => a.batch_index ≥ b.batch_index)

/-- The clause `LIMIT 1`. -/
def limit1 (rows : List Row) : List Row := rows.take 1

/-- The clause `WHERE start_block_number <= $1 AND end_block_number >= $1`. -/
def whereBlockInRange (height : Nat) (rows : List Row) : List Row :=
  rows.filter (fun r => decide (r.start_block_number ≤ height) && decide (r.end_block_number ≥ height))

/-- The clause `WHERE status = $1`. -/
def whereStatus (status : BatchStatus) (rows : List Row) : List Row :=
  rows.filter (fun r => decide (r.status = status))

/-- The clause `WHERE batch_index = $1`. -/
def whereBatchIndex (index : Nat) (rows : List Row) : List Row :=
  rows.filter (fun r => decide (r.batch_index = index))

/-- InsertArgs is the named-parameter map `messageMaps[i]` of the insert. -/
structure InsertArgs where
  height : Nat
  batch_index : Nat
  batch_hash : String
  start_block_number : Nat
  end_block_number : Nat
deriving DecidableEq, Repr

/-- The row stored by `insert into bridge_batch(height, batch_index, batch_hash,
start_block_number, end_block_number) values(...)`: the bound columns, the id
the storage assigns, and the column default for `status`, which is not bound. -/
def insertedRow (id : Nat) (a : InsertArgs) : Row :=
  { id := id, batch_index := a.batch_index, batch_hash := a.batch_hash, height := a.height,
    start_block_number := a.start_block_number, end_block_number := a.end_block_number,
    status := statusColumnDefault }

/-- The positional arguments the named insert is compiled to, in the order
`:height, :batch_index, :batch_hash, :start_block_number, :end_block_number` of
the statement. -/
def insertStatementArgs (a : InsertArgs) : List Arg :=
  [.uint64 a.height, .uint64 a.batch_index, .string a.batch_hash,
   .uint64 a.start_block_number, .uint64 a.end_block_number]

/-- Executes the insert statement on the table.  Whether the storage fails
(`fails`) and which id it assigns (`newId`) are not fixed by the source and are
arguments.  A storage fault or an argument that does not convert stores
nothing; a successful statement appends the row. -/
def execInsert (fails : List Row → InsertArgs → Option DbError) (newId : List Row → Nat)
    (tbl : List Row) (a : InsertArgs) : Option DbError × List Row :=
  match fails tbl a with
  | some e => (some e, tbl)
  | none =>
    match convertArgs 1 (insertStatementArgs a) with
    | some e => (some e, tbl)
    | none => (none, tbl ++ [insertedRow (newId tbl) a])

/-- Executes `UPDATE bridge_batch SET status = $1 WHERE batch_index = $2` with
the arguments `status, batchIndex`.  A storage fault or an argument that does
not convert leaves the table as it was; otherwise every matching row gets the
new status, and matching no row is not an error. -/
def execUpdateStatus (fault : Option DbError) (tbl : List Row) (status : BatchStatus)
    (batchIndex : Nat) : Option DbError × List Row :=
  match fault with
  | some e => (some e, tbl)
  | none =>
    match convertArgs 1 [.int status, .uint64 batchIndex] with
    | some e => (some e, tbl)
    | none =>
      (none, tbl.map (fun r =>
        if r.batch_index = batchIndex then { r with status := status } else r))

/-! ## Go layer: the methods of `bridgeBatchOrm` -/

/-- The map literal built for one message in `BatchInsertBridgeBatchDBTx`. -/
def messageMap (msg : BridgeBatch) : InsertArgs :=
  { height := msg.Height, batch_index := msg.BatchIndex, batch_hash := msg.BatchHash,
    start_block_number := msg.StartBlockNumber, end_block_number := msg.EndBlockNumber }

/-- The `for i, msg := range messages` loop of `BatchInsertBridgeBatchDBTx`.
The result is the final `err`, the transaction state, and the heights passed to
`log.Error`. -/
def insertLoop {σ ε : Type} (NamedExec : σ → InsertArgs → Option ε × σ) :
    σ → List BridgeBatch → Option ε × σ × List Nat
  | dbTx, [] => (none, dbTx, [])
  | dbTx, msg :: rest =>
    match NamedExec dbTx (messageMap msg) with
    | (some err, dbTx1) => (some err, dbTx1, [msg.Height])
    | (none, dbTx1) => insertLoop NamedExec dbTx1 rest

/-- BatchInsertBridgeBatchDBTx, over any executor of the insert statement. -/
def BatchInsertBridgeBatchDBTx {σ ε : Type} (NamedExec : σ → InsertArgs → Option ε × σ)
    (dbTx : σ) (messages : List BridgeBatch) : Option ε × σ × List Nat :=
  if messages.length = 0 then (none, dbTx, [])
  else insertLoop NamedExec dbTx messages

/-- GetLatestBridgeBatch: `SELECT id, height, batch_hash, start_block_number,
end_block_number FROM bridge_batch ORDER BY batch_index DESC LIMIT 1`. -/
def GetLatestBridgeBatch (fault : Option DbError) (tbl : List Row) :
    Option BridgeBatch × Option DbError :=
  let result : BridgeBatch := {}
  match QueryRowx fault [] (limit1 (orderByBatchIndexDesc tbl)) with
  | .error err => if err = DbError.ErrNoRows then (none, none) else (none, some err)
  | .ok row =>
    (some (StructScan [.id, .height, .batch_hash, .start_block_number, .end_block_number] row result),
      none)

/-- GetBridgeBatchByBlock: `SELECT id, batch_index, height, start_block_number,
end_block_number, status FROM bridge_batch WHERE start_block_number <= $1 AND
end_block_number >= $1`. -/
def GetBridgeBatchByBlock (fault : Option DbError) (tbl : List Row) (height : Nat) :
    Option BridgeBatch × Option DbError :=
  let result : BridgeBatch := {}
  match QueryRowx fault [.uint64 height] (whereBlockInRange height tbl) with
  | .error err => if err = DbError.ErrNoRows then (none, none) else (none, some err)
  | .ok row =>
    (some (StructScan [.id, .batch_index, .height, .start_block_number, .end_block_number, .status]
      row result), none)

/-- GetLatestBridgeBatchWithProof: `SELECT id, batch_index, height,
start_block_number, end_block_number, status FROM bridge_batch WHERE status = $1
ORDER BY batch_index DESC LIMIT 1` with `$1 = BatchWithProof`. -/
def GetLatestBridgeBatchWithProof (fault : Option DbError) (tbl : List Row) :
    Option BridgeBatch × Option DbError :=
  let result : BridgeBatch := {}
  match QueryRowx fault [.int BatchWithProof]
      (limit1 (orderByBatchIndexDesc (whereStatus BatchWithProof tbl))) with
  | .error err => if err = DbError.ErrNoRows then (none, none) else (none, some err)
  | .ok row =>
    (some (StructScan [.id, .batch_index, .height, .start_block_number, .end_block_number, .status]
      row result), none)

/-- GetBridgeBatchByIndex: `SELECT id, batch_index, height, start_block_number,
end_block_number FROM bridge_batch WHERE batch_index = $1`; every scan error is
returned, `sql.ErrNoRows` included. -/
def GetBridgeBatchByIndex (fault : Option DbError) (tbl : List Row) (index : Nat) :
    Option BridgeBatch × Option DbError :=
  let result : BridgeBatch := {}
  match QueryRowx fault [.uint64 index] (whereBatchIndex index tbl) with
  | .error err => (none, some err)
  | .ok row =>
    (some (StructScan [.id, .batch_index, .height, .start_block_number, .end_block_number]
      row result), none)

/-- UpdateBridgeBatchStatusDBTx, over any executor of the update statement: the
statement is executed once and its error returned. -/
def UpdateBridgeBatchStatusDBTx {σ ε : Type} (Exec : σ → BatchStatus → Nat → Option ε × σ)
    (dbTx : σ) (batchIndex : Nat) (status : BatchStatus) : Option ε × σ :=
  Exec dbTx status batchIndex

/-! ## Observers used by the statements -/

/-- The observing executor: it runs `NamedExec` and also records the arguments
of every insert that is attempted, in order. -/
def traced {σ ε : Type} (NamedExec : σ → InsertArgs → Option ε × σ) :
    σ × List InsertArgs → InsertArgs → Option ε × (σ × List InsertArgs) :=
  fun s a => ((NamedExec s.1 a).1, ((NamedExec s.1 a).2, s.2 ++ [a]))

/-- The transaction state after executing the given inserts one after the
other, whatever each returned. -/
def execAll {σ ε : Type} (NamedExec : σ → InsertArgs → Option ε × σ) : σ → List InsertArgs → σ
  | s, [] => s
  | s, a :: rest => execAll NamedExec (NamedExec s a).2 rest

/-- Whether each of the given inserts, executed one after the other, returns no
error. -/
def allSucceed {σ ε : Type} (NamedExec : σ → InsertArgs → Option ε × σ) : σ → List InsertArgs → Bool
  | _, [] => true
  | s, a :: rest => (NamedExec s a).1.isNone && allSucceed NamedExec (NamedExec s a).2 rest

/-- The rows of a table carry pairwise different `batch_index` values. -/
def UniqueBatchIndex (tbl : List Row) : Prop :=
  tbl.Pairwise (fun a b => a.batch_index ≠ b.batch_index)

/-- Two rows cover disjoint block ranges. -/
def NonOverlapping (a b : Row) : Prop :=
  a.end_block_number < b.start_block_number ∨ b.end_block_number < a.start_block_number

instance NonOverlapping.instDecidable (a b : Row) : Decidable (NonOverlapping a b) := by
  unfold NonOverlapping; infer_instance

instance UniqueBatchIndex.instDecidable (tbl : List Row) : Decidable (UniqueBatchIndex tbl) := by
  unfold UniqueBatchIndex; infer_instance

/-- The columns an insert binds, read back from a stored row. -/
def rowArgs (r : Row) : InsertArgs :=
  { height := r.height, batch_index := r.batch_index, batch_hash := r.batch_hash,
    start_block_number := r.start_block_number, end_block_number := r.end_block_number }

/-- One call of the repository, with the storage behaviour it meets. -/
inductive RepoOp where
  | batchInsert (fails : List Row → InsertArgs → Option DbError) (newId : List Row → Nat)
      (messages : List BridgeBatch)
  | getLatest (fault : Option DbError)
  | getByBlock (fault : Option DbError) (height : Nat)
  | getLatestWithProof (fault : Option DbError)
  | getByIndex (fault : Option DbError) (index : Nat)
  | updateStatus (fault : Option DbError) (batchIndex : Nat) (status : BatchStatus)

/-- The table after one call.  The four reads only query the table. -/
def RepoOp.apply (tbl : List Row) : RepoOp → List Row
  | .batchInsert fails newId messages =>
    (BatchInsertBridgeBatchDBTx (execInsert fails newId) tbl messages).2.1
  | .getLatest _ => tbl
  | .getByBlock _ _ => tbl
  | .getLatestWithProof _ => tbl
  | .getByIndex _ _ => tbl
  | .updateStatus fault batchIndex status =>
    (UpdateBridgeBatchStatusDBTx (execUpdateStatus fault) tbl batchIndex status).2

/-- The table after a sequence of calls. -/
def runOps (tbl : List Row) (ops : List RepoOp) : List Row :=
  ops.foldl RepoOp.apply tbl

/-! ## Argument conversion -/

/-- The single `uint64` argument of a lookup converts when its high bit is
clear. -/
theorem convertArgs_lookup_lt (v : Nat) (h : v < 2 ^ 63) :
    convertArgs 1 [.uint64 v] = none := by
  simp only [convertArgs, if_neg (Nat.not_le.2 h)]

/-- The single `uint64` argument of a lookup is refused when its high bit is
set. -/
theorem convertArgs_lookup_ge (v : Nat) (h : 2 ^ 63 ≤ v) :
    convertArgs 1 [.uint64 v] = some (DbError.convertArg 1) := by
  simp only [convertArgs, if_pos h]

/-- The arguments `status, batchIndex` of the update convert when the high bit
of `batchIndex` is clear. -/
theorem convertArgs_update_lt (status : BatchStatus) (v : Nat) (h : v < 2 ^ 63) :
    convertArgs 1 [.int status, .uint64 v] = none := by
  simp only [convertArgs, if_neg (Nat.not_le.2 h)]

/-- The `batchIndex` argument of the update, the second one, is refused when its
high bit is set. -/
theorem convertArgs_update_ge (status : BatchStatus) (v : Nat) (h : 2 ^ 63 ≤ v) :
    convertArgs 1 [.int status, .uint64 v] = some (DbError.convertArg 2) := by
  simp only [convertArgs, if_pos h]

/-- If the arguments of the insert convert, the bound `batch_index` has its
high bit clear. -/
theorem convertArgs_insert_none (a : InsertArgs)
    (h : convertArgs 1 (insertStatementArgs a) = none) : a.batch_index < 2 ^ 63 := by
  by_contra hge
  simp only [insertStatementArgs, convertArgs] at h
  split at h
  · exact absurd h (by simp)
  · rw [if_pos (Nat.le_of_not_lt hge)] at h
    exact absurd h (by simp)

/-- Without a storage fault the update of an index below `2 ^ 63` rewrites the
status of the matching rows and returns nil. -/
theorem update_of_lt (tbl : List Row) (batchIndex : Nat) (status : BatchStatus)
    (h : batchIndex < 2 ^ 63) :
    UpdateBridgeBatchStatusDBTx (execUpdateStatus none) tbl batchIndex status
      = (none, tbl.map (fun r =>
          if r.batch_index = batchIndex then { r with status := status } else r)) := by
  simp [UpdateBridgeBatchStatusDBTx, execUpdateStatus, convertArgs_update_lt _ _ h]

/-- Without a storage fault the update of an index from `2 ^ 63` on returns the
argument-conversion error and changes nothing. -/
theorem update_of_ge (tbl : List Row) (batchIndex : Nat) (status : BatchStatus)
    (h : 2 ^ 63 ≤ batchIndex) :
    UpdateBridgeBatchStatusDBTx (execUpdateStatus none) tbl batchIndex status
      = (some (DbError.convertArg 2), tbl) := by
  simp [UpdateBridgeBatchStatusDBTx, execUpdateStatus, convertArgs_update_ge _ _ h]

/-! ## Not-found and error propagation -/

/-- C3, amended: `GetBridgeBatchByIndex` on a table without a row of the asked
`batch_index` returns no record and an error, whatever the storage does; when
the storage does not fail the error is `sql.ErrNoRows` for an index below
`2 ^ 63` and the argument-conversion error for any other index; and on no table
at all does the function return the pair (absent, no error). -/
theorem GetBridgeBatchByIndex_missing_is_error (fault : Option DbError) (tbl : List Row)
    (index : Nat) (hmiss : ∀ r ∈ tbl, r.batch_index ≠ index) :
    (∃ e, GetBridgeBatchByIndex fault tbl index = (none, some e)) ∧
    (index < 2 ^ 63 →
      GetBridgeBatchByIndex none tbl index = (none, some DbError.ErrNoRows)) ∧
    (2 ^ 63 ≤ index →
      GetBridgeBatchByIndex none tbl index = (none, some (DbError.convertArg 1))) ∧
    (∀ (f : Option DbError) (t : List Row) (i : Nat), GetBridgeBatchByIndex f t i ≠ (none, none)) := by
  have hnil : whereBatchIndex index tbl = [] := by
    simp only [whereBatchIndex, List.filter_eq_nil_iff, decide_eq_true_eq]
    exact hmiss
  have hlt : index < 2 ^ 63 →
      GetBridgeBatchByIndex none tbl index = (none, some DbError.ErrNoRows) := by
    intro h
    simp [GetBridgeBatchByIndex, QueryRowx, convertArgs_lookup_lt _ h, hnil]
  have hge : 2 ^ 63 ≤ index →
      GetBridgeBatchByIndex none tbl index = (none, some (DbError.convertArg 1)) := by
    intro h
    simp [GetBridgeBatchByIndex, QueryRowx, convertArgs_lookup_ge _ h]
  refine ⟨?_, hlt, hge, ?_⟩
  · cases fault with
    | none =>
      rcases Nat.lt_or_ge index (2 ^ 63) with h | h
      · exact ⟨_, hlt h⟩
      · exact ⟨_, hge h⟩
    | some e => exact ⟨e, by simp [GetBridgeBatchByIndex, QueryRowx]⟩
  · intro f t i
    unfold GetBridgeBatchByIndex
    cases hq : QueryRowx f [.uint64 i] (whereBatchIndex i t) <;> simp

/-- Witness for C3 as amended: a one-row table asked for an index it does not
hold, once below `2 ^ 63` and once at `2 ^ 63`. -/
theorem GetBridgeBatchByIndex_missing_is_error_witness :
    GetBridgeBatchByIndex none [⟨1, 4, "0xaa", 10, 100, 200, 0⟩] 5
        = (none, some DbError.ErrNoRows) ∧
      GetBridgeBatchByIndex none [⟨1, 4, "0xaa", 10, 100, 200, 0⟩] (2 ^ 63)
        = (none, some (DbError.convertArg 1)) :=
  ⟨(GetBridgeBatchByIndex_missing_is_error none [⟨1, 4, "0xaa", 10, 100, 200, 0⟩] 5
      (by decide)).2.1 (by decide),
    (GetBridgeBatchByIndex_missing_is_error none [⟨1, 4, "0xaa", 10, 100, 200, 0⟩] (2 ^ 63)
      (by decide)).2.2.1 (by decide)⟩

/-- C3 as stated fails: the table has no row of index `2 ^ 63`, the storage does
not fail, and the error `GetBridgeBatchByIndex` returns is the
argument-conversion error, not `sql.ErrNoRows`. -/
theorem GetBridgeBatchByIndex_high_bit_not_ErrNoRows :
    (∀ r ∈ [(⟨1, 4, "0xaa", 10, 100, 200, 0⟩ : Row)], r.batch_index ≠ 2 ^ 63) ∧
      GetBridgeBatchByIndex none [⟨1, 4, "0xaa", 10, 100, 200, 0⟩] (2 ^ 63)
        = (none, some (DbError.convertArg 1)) ∧
      GetBridgeBatchByIndex none [⟨1, 4, "0xaa", 10, 100, 200, 0⟩] (2 ^ 63)
        ≠ (none, some DbError.ErrNoRows) := by
  refine ⟨by decide, by decide, by decide⟩

/-- C9, amended: on an empty table `GetLatestBridgeBatch`,
`GetBridgeBatchByBlock` for every height below `2 ^ 63` and
`GetLatestBridgeBatchWithProof` return (absent, no error); whenever the scan
reports `sql.ErrNoRows` the three reads return (absent, no error), in
particular when no row passes the `WHERE` clause; any other error is returned
as it is with an absent record, and for `GetBridgeBatchByBlock` that includes
the argument-conversion error of a height from `2 ^ 63` on. -/
theorem reads_normalise_only_ErrNoRows (tbl : List Row) (height : Nat) (e : DbError)
    (he : e ≠ DbError.ErrNoRows) :
    (GetLatestBridgeBatch none [] = (none, none) ∧
      (height < 2 ^ 63 → GetBridgeBatchByBlock none [] height = (none, none)) ∧
      GetLatestBridgeBatchWithProof none [] = (none, none)) ∧
    (GetLatestBridgeBatch (some DbError.ErrNoRows) tbl = (none, none) ∧
      GetBridgeBatchByBlock (some DbError.ErrNoRows) tbl height = (none, none) ∧
      GetLatestBridgeBatchWithProof (some DbError.ErrNoRows) tbl = (none, none)) ∧
    (height < 2 ^ 63 →
      (∀ r ∈ tbl, ¬ (r.start_block_number ≤ height ∧ height ≤ r.end_block_number)) →
      GetBridgeBatchByBlock none tbl height = (none, none)) ∧
    ((∀ r ∈ tbl, r.status ≠ BatchWithProof) →
      GetLatestBridgeBatchWithProof none tbl = (none, none)) ∧
    (GetLatestBridgeBatch (some e) tbl = (none, some e) ∧
      GetBridgeBatchByBlock (some e) tbl height = (none, some e) ∧
      GetLatestBridgeBatchWithProof (some e) tbl = (none, some e)) ∧
    (2 ^ 63 ≤ height →
      GetBridgeBatchByBlock none tbl height = (none, some (DbError.convertArg 1))) := by
  refine ⟨⟨by decide, ?_, by decide⟩, ⟨?_, ?_, ?_⟩, ?_, ?_, ⟨?_, ?_, ?_⟩, ?_⟩
  · intro h
    simp [GetBridgeBatchByBlock, QueryRowx, convertArgs_lookup_lt _ h,
      whereBlockInRange]
  · simp [GetLatestBridgeBatch, QueryRowx]
  · simp [GetBridgeBatchByBlock, QueryRowx]
  · simp [GetLatestBridgeBatchWithProof, QueryRowx]
  · intro h hno
    have hnil : whereBlockInRange height tbl = [] := by
      simp only [whereBlockInRange, List.filter_eq_nil_iff, Bool.and_eq_true, decide_eq_true_eq]
      exact hno
    simp [GetBridgeBatchByBlock, QueryRowx, convertArgs_lookup_lt _ h, hnil]
  · intro hno
    have hnil : whereStatus BatchWithProof tbl = [] := by
      simp only [whereStatus, List.filter_eq_nil_iff, decide_eq_true_eq]
      exact hno
    simp [GetLatestBridgeBatchWithProof, QueryRowx, convertArgs, hnil, orderByBatchIndexDesc,
      limit1]
  · simp [GetLatestBridgeBatch, QueryRowx, he]
  · simp [GetBridgeBatchByBlock, QueryRowx, he]
  · simp [GetLatestBridgeBatchWithProof, QueryRowx, he]
  · intro h
    simp [GetBridgeBatchByBlock, QueryRowx, convertArgs_lookup_ge _ h]

/-- Witness for C9 as amended: a storage failure with code 7 on a one-row
table, a height no row contains, and a table without a proved row. -/
theorem reads_normalise_only_ErrNoRows_witness :
    GetLatestBridgeBatch (some (DbError.storage 7)) [⟨1, 4, "0xaa", 10, 100, 200, 0⟩]
        = (none, some (DbError.storage 7)) ∧
      GetBridgeBatchByBlock none [⟨1, 4, "0xaa", 10, 100, 200, 0⟩] 99 = (none, none) ∧
      GetLatestBridgeBatchWithProof none [⟨1, 4, "0xaa", 10, 100, 200, 0⟩] = (none, none) :=
  have h := reads_normalise_only_ErrNoRows [⟨1, 4, "0xaa", 10, 100, 200, 0⟩] 99
    (DbError.storage 7) (by decide)
  ⟨h.2.2.2.2.1.1, h.2.2.1 (by decide) (by decide), h.2.2.2.1 (by decide)⟩

/-- C9 as stated fails: on the empty table, with a storage that does not fail,
`GetBridgeBatchByBlock` of height `2 ^ 63` returns the argument-conversion
error and not (absent, no error). -/
theorem GetBridgeBatchByBlock_empty_high_bit_is_error :
    GetBridgeBatchByBlock none [] (2 ^ 63) = (none, some (DbError.convertArg 1)) ∧
      GetBridgeBatchByBlock none [] (2 ^ 63) ≠ (none, none) := by
  refine ⟨by decide, by decide⟩

/-! ## Columns that a read does not select -/

/-- C10: a field whose column the read does not select keeps Go's zero value.
Whatever the table holds, a record returned by `GetBridgeBatchByIndex` has an
empty `BatchHash` and status `BatchWithoutProof`, also right after the row was
set to `BatchWithProof`; one returned by `GetLatestBridgeBatch` has
`BatchIndex = 0` and status `BatchWithoutProof`; one returned by
`GetBridgeBatchByBlock` or `GetLatestBridgeBatchWithProof` has an empty
`BatchHash`. -/
theorem unselected_fields_keep_zero (fault : Option DbError) (tbl : List Row) (n : Nat) :
    (∀ rec, (GetBridgeBatchByIndex fault tbl n).1 = some rec →
      rec.BatchHash = "" ∧ rec.Status = BatchWithoutProof) ∧
    (∀ f rec, (GetBridgeBatchByIndex fault
        (UpdateBridgeBatchStatusDBTx (execUpdateStatus f) tbl n BatchWithProof).2 n).1 = some rec →
      rec.BatchHash = "" ∧ rec.Status = BatchWithoutProof) ∧
    (∀ rec, (GetLatestBridgeBatch fault tbl).1 = some rec →
      rec.BatchIndex = 0 ∧ rec.Status = BatchWithoutProof) ∧
    (∀ rec, (GetBridgeBatchByBlock fault tbl n).1 = some rec → rec.BatchHash = "") ∧
    (∀ rec, (GetLatestBridgeBatchWithProof fault tbl).1 = some rec → rec.BatchHash = "") := by
  have hidx : ∀ (t : List Row) rec, (GetBridgeBatchByIndex fault t n).1 = some rec →
      rec.BatchHash = "" ∧ rec.Status = BatchWithoutProof := by
    intro t rec h
    unfold GetBridgeBatchByIndex at h
    cases hq : QueryRowx fault [.uint64 n] (whereBatchIndex n t) with
    | error err => simp [hq] at h
    | ok row =>
      simp only [hq, Option.some.injEq] at h
      subst h
      simp [StructScan, bindColumn, BatchWithoutProof]
  refine ⟨hidx tbl, fun f => hidx _, ?_, ?_, ?_⟩
  · intro rec h
    unfold GetLatestBridgeBatch at h
    cases hq : QueryRowx fault [] (limit1 (orderByBatchIndexDesc tbl)) with
    | error err =>
      simp only [hq] at h
      split at h <;> simp at h
    | ok row =>
      simp only [hq, Option.some.injEq] at h
      subst h
      simp [StructScan, bindColumn, BatchWithoutProof]
  · intro rec h
    unfold GetBridgeBatchByBlock at h
    cases hq : QueryRowx fault [.uint64 n] (whereBlockInRange n tbl) with
    | error err =>
      simp only [hq] at h
      split at h <;> simp at h
    | ok row =>
      simp only [hq, Option.some.injEq] at h
      subst h
      simp [StructScan, bindColumn]
  · intro rec h
    unfold GetLatestBridgeBatchWithProof at h
    cases hq : QueryRowx fault [.int BatchWithProof]
        (limit1 (orderByBatchIndexDesc (whereStatus BatchWithProof tbl))) with
    | error err =>
      simp only [hq] at h
      split at h <;> simp at h
    | ok row =>
      simp only [hq, Option.some.injEq] at h
      subst h
      simp [StructScan, bindColumn]

/-- Witness for C10: the stored row has hash `0xaa` and, after the update,
status `BatchWithProof`, yet the lookup by index gives an empty hash and
`BatchWithoutProof`. -/
theorem unselected_fields_keep_zero_witness :
    (UpdateBridgeBatchStatusDBTx (execUpdateStatus none) [⟨1, 4, "0xaa", 10, 100, 200, 0⟩] 4
        BatchWithProof).2 = [⟨1, 4, "0xaa", 10, 100, 200, 1⟩] ∧
      (GetBridgeBatchByIndex none
        (UpdateBridgeBatchStatusDBTx (execUpdateStatus none) [⟨1, 4, "0xaa", 10, 100, 200, 0⟩] 4
          BatchWithProof).2 4).1
        = some { ID := 1, BatchIndex := 4, Height := 10, StartBlockNumber := 100,
                 EndBlockNumber := 200 } ∧
      ({ ID := 1, BatchIndex := 4, Height := 10, StartBlockNumber := 100,
         EndBlockNumber := 200 } : BridgeBatch).BatchHash = "" ∧
      ({ ID := 1, BatchIndex := 4, Height := 10, StartBlockNumber := 100,
         EndBlockNumber := 200 } : BridgeBatch).Status = BatchWithoutProof :=
  have h := (unselected_fields_keep_zero none [⟨1, 4, "0xaa", 10, 100, 200, 0⟩] 4).2.1 none
    { ID := 1, BatchIndex := 4, Height := 10, StartBlockNumber := 100, EndBlockNumber := 200 }
    (by decide)
  ⟨by decide, by decide, h.1, h.2⟩

/-! ## The status update -/

/-- C7, amended: a successful `UpdateBridgeBatchStatusDBTx` keeps the number and
order of rows, gives the rows whose `batch_index` matches the new status
whatever they held, and leaves every other row and every other column as it
was; if no row matches the table is unchanged; without a storage fault the call
returns nil for every `batchIndex` below `2 ^ 63`, whether or not a row matches;
and for a `batchIndex` from `2 ^ 63` on it returns the argument-conversion error
and leaves the table as it was. -/
theorem UpdateBridgeBatchStatusDBTx_frame (fault : Option DbError) (tbl : List Row)
    (batchIndex : Nat) (newStatus : BatchStatus)
    (hok : (UpdateBridgeBatchStatusDBTx (execUpdateStatus fault) tbl batchIndex newStatus).1 = none) :
    (UpdateBridgeBatchStatusDBTx (execUpdateStatus fault) tbl batchIndex newStatus).2.length
        = tbl.length ∧
    (∀ (i : Nat) (r : Row), tbl[i]? = some r →
      (UpdateBridgeBatchStatusDBTx (execUpdateStatus fault) tbl batchIndex newStatus).2[i]?
        = some (if r.batch_index = batchIndex then
            { id := r.id, batch_index := r.batch_index, batch_hash := r.batch_hash,
              height := r.height, start_block_number := r.start_block_number,
              end_block_number := r.end_block_number, status := newStatus }
          else r)) ∧
    ((∀ r ∈ tbl, r.batch_index ≠ batchIndex) →
      (UpdateBridgeBatchStatusDBTx (execUpdateStatus fault) tbl batchIndex newStatus).2 = tbl) ∧
    (∀ (t : List Row) (idx : Nat) (st : BatchStatus), idx < 2 ^ 63 →
      (UpdateBridgeBatchStatusDBTx (execUpdateStatus none) t idx st).1 = none) ∧
    (∀ (t : List Row) (idx : Nat) (st : BatchStatus), 2 ^ 63 ≤ idx →
      UpdateBridgeBatchStatusDBTx (execUpdateStatus none) t idx st
        = (some (DbError.convertArg 2), t)) := by
  cases fault with
  | some e => simp [UpdateBridgeBatchStatusDBTx, execUpdateStatus] at hok
  | none =>
    rcases Nat.lt_or_ge batchIndex (2 ^ 63) with h | h
    · rw [update_of_lt tbl batchIndex newStatus h]
      refine ⟨by simp, ?_, ?_, fun t idx st hi => by rw [update_of_lt t idx st hi],
        update_of_ge⟩
      · intro i r hr
        simp only [List.getElem?_map, hr, Option.map_some']
      · intro hno
        show List.map _ tbl = tbl
        conv_rhs => rw [← List.map_id tbl]
        apply List.map_congr_left
        intro r hr
        simp [hno r hr]
    · rw [update_of_ge tbl batchIndex newStatus h] at hok
      exact absurd hok (by simp)

/-- Witness for C7 as amended: of two rows, the one with index 5 goes from
status 1 to status 0 and the other is untouched. -/
theorem UpdateBridgeBatchStatusDBTx_frame_witness :
    (UpdateBridgeBatchStatusDBTx (execUpdateStatus none)
        [⟨1, 4, "0xaa", 10, 100, 200, 0⟩, ⟨2, 5, "0xbb", 20, 201, 300, 1⟩] 5 0).2[1]?
      = some (if (5 : Nat) = 5 then ⟨2, 5, "0xbb", 20, 201, 300, 0⟩
          else ⟨2, 5, "0xbb", 20, 201, 300, 1⟩) :=
  (UpdateBridgeBatchStatusDBTx_frame none
    [⟨1, 4, "0xaa", 10, 100, 200, 0⟩, ⟨2, 5, "0xbb", 20, 201, 300, 1⟩] 5 0 (by decide)).2.1 1
    ⟨2, 5, "0xbb", 20, 201, 300, 1⟩ rfl

/-- C7 as stated fails: no row of the table has index `2 ^ 63`, the storage does
not fail, and `UpdateBridgeBatchStatusDBTx` of that index returns the
argument-conversion error instead of nil. -/
theorem UpdateBridgeBatchStatusDBTx_high_bit_is_error :
    (∀ r ∈ [(⟨1, 4, "0xaa", 10, 100, 200, 0⟩ : Row)], r.batch_index ≠ 2 ^ 63) ∧
      UpdateBridgeBatchStatusDBTx (execUpdateStatus none) [⟨1, 4, "0xaa", 10, 100, 200, 0⟩]
          (2 ^ 63) BatchWithProof
        = (some (DbError.convertArg 2), [⟨1, 4, "0xaa", 10, 100, 200, 0⟩]) ∧
      (UpdateBridgeBatchStatusDBTx (execUpdateStatus none) [⟨1, 4, "0xaa", 10, 100, 200, 0⟩]
          (2 ^ 63) BatchWithProof).1 ≠ none := by
  refine ⟨by decide, by decide, by decide⟩

/-! ## The insert loop -/

/-- Observing the inserts does not change what the loop returns. -/
theorem insertLoop_traced_fst {σ ε : Type} (NamedExec : σ → InsertArgs → Option ε × σ)
    (messages : List BridgeBatch) : ∀ (s : σ) (lg : List InsertArgs),
      insertLoop NamedExec s messages
        = ((insertLoop (traced NamedExec) (s, lg) messages).1,
           (insertLoop (traced NamedExec) (s, lg) messages).2.1.1,
           (insertLoop (traced NamedExec) (s, lg) messages).2.2) := by
  induction messages with
  | nil => intro s lg; rfl
  | cons m rest ih =>
    intro s lg
    rcases h : NamedExec s (messageMap m) with ⟨err, s1⟩
    cases err with
    | some e => simp [insertLoop, traced, h]
    | none =>
      simp only [insertLoop, traced, h]
      exact ih s1 (lg ++ [messageMap m])

/-- The loop either runs through the whole input with every insert succeeding,
or stops at the first insert that fails. -/
theorem insertLoop_traced {σ ε : Type} (NamedExec : σ → InsertArgs → Option ε × σ)
    (messages : List BridgeBatch) : ∀ (s : σ) (lg : List InsertArgs),
      (allSucceed NamedExec s (messages.map messageMap) = true ∧
        insertLoop (traced NamedExec) (s, lg) messages
          = (none, (execAll NamedExec s (messages.map messageMap),
              lg ++ messages.map messageMap), [])) ∨
      (∃ pre b post e, messages = pre ++ b :: post ∧
        allSucceed NamedExec s (pre.map messageMap) = true ∧
        (NamedExec (execAll NamedExec s (pre.map messageMap)) (messageMap b)).1 = some e ∧
        insertLoop (traced NamedExec) (s, lg) messages
          = (some e, (execAll NamedExec s ((pre ++ [b]).map messageMap),
              lg ++ (pre ++ [b]).map messageMap), [b.Height])) := by
  induction messages with
  | nil => intro s lg; left; simp [insertLoop, allSucceed, execAll]
  | cons m rest ih =>
    intro s lg
    rcases h : NamedExec s (messageMap m) with ⟨err, s1⟩
    cases err with
    | some e =>
      right
      refine ⟨[], m, rest, e, rfl, rfl, ?_, ?_⟩
      · simp [execAll, h]
      · simp [insertLoop, traced, h, execAll]
    | none =>
      rcases ih s1 (lg ++ [messageMap m]) with ⟨hall, hrun⟩ | ⟨pre, b, post, e, hsplit, hall, hfail, hrun⟩
      · left
        refine ⟨by simp [allSucceed, h, hall], ?_⟩
        simp only [insertLoop, traced, h, hrun, List.map_cons, execAll, List.append_assoc,
          List.singleton_append]
      · right
        refine ⟨m :: pre, b, post, e, by simp [hsplit], by simp [allSucceed, h, hall], ?_, ?_⟩
        · simpa [execAll, h] using hfail
        · simp [insertLoop, traced, h, hrun, execAll]

/-- C2: for every executor of the insert statement, `BatchInsertBridgeBatchDBTx`
either attempts the inserts of the whole input in input order, all succeed and
nil is returned (which for empty input means nothing is attempted), or the input
splits as `pre ++ b :: post` where the inserts of `pre` succeed, the insert of
`b` fails with `e`, exactly the inserts of `pre ++ [b]` are attempted in that
order, `e` is what the call returns, and the height of `b` is logged.  In both
cases the transaction state is the one reached by the attempted inserts, with
nothing undone; observing the attempts does not alter the result. -/
theorem BatchInsertBridgeBatchDBTx_stops_at_first_failure {σ ε : Type}
    (NamedExec : σ → InsertArgs → Option ε × σ) (s : σ) (messages : List BridgeBatch) :
    ((allSucceed NamedExec s (messages.map messageMap) = true ∧
        BatchInsertBridgeBatchDBTx (traced NamedExec) (s, []) messages
          = (none, (execAll NamedExec s (messages.map messageMap), messages.map messageMap), [])) ∨
      (∃ pre b post e, messages = pre ++ b :: post ∧
        allSucceed NamedExec s (pre.map messageMap) = true ∧
        (NamedExec (execAll NamedExec s (pre.map messageMap)) (messageMap b)).1 = some e ∧
        BatchInsertBridgeBatchDBTx (traced NamedExec) (s, []) messages
          = (some e, (execAll NamedExec s ((pre ++ [b]).map messageMap),
              (pre ++ [b]).map messageMap), [b.Height]))) ∧
    BatchInsertBridgeBatchDBTx (traced NamedExec) (s, []) [] = (none, (s, []), []) ∧
    BatchInsertBridgeBatchDBTx NamedExec s messages
      = ((BatchInsertBridgeBatchDBTx (traced NamedExec) (s, []) messages).1,
         (BatchInsertBridgeBatchDBTx (traced NamedExec) (s, []) messages).2.1.1,
         (BatchInsertBridgeBatchDBTx (traced NamedExec) (s, []) messages).2.2) := by
  have hloop : ∀ (τ : Type) (f : τ → InsertArgs → Option ε × τ) (t : τ),
      BatchInsertBridgeBatchDBTx f t messages = insertLoop f t messages := by
    intro τ f t
    unfold BatchInsertBridgeBatchDBTx
    cases messages with
    | nil => rfl
    | cons m rest => simp
  refine ⟨?_, rfl, ?_⟩
  · rw [hloop]
    simpa using insertLoop_traced NamedExec messages s []
  · rw [hloop, hloop]
    exact insertLoop_traced_fst NamedExec messages s []

/-! ## Shared facts about the SQL clauses -/

/-- A filter whose predicate no two rows of the table satisfy together returns
exactly the row that satisfies it. -/
theorem filter_eq_singleton (p : Row → Bool) (tbl : List Row) (r : Row)
    (hpw : tbl.Pairwise (fun a b => ¬ (p a = true ∧ p b = true))) (hr : r ∈ tbl)
    (hp : p r = true) : tbl.filter p = [r] := by
  induction tbl with
  | nil => simp at hr
  | cons x xs ih =>
    rw [List.pairwise_cons] at hpw
    rcases List.mem_cons.1 hr with hx | hx
    · subst hx
      have hrest : xs.filter p = [] := by
        rw [List.filter_eq_nil_iff]
        intro y hy hpy
        exact hpw.1 y hy ⟨hp, hpy⟩
      simp [List.filter_cons, hp, hrest]
    · have hpx : p x = false := by
        cases hx2 : p x with
        | false => rfl
        | true => exact absurd ⟨hx2, hp⟩ (hpw.1 r hx)
      simp [List.filter_cons, hpx, ih hpw.2 hx]

/-- The first row of `ORDER BY batch_index DESC LIMIT 1` over a non-empty result
set is a row of it whose `batch_index` no other row exceeds. -/
theorem limit1_orderBy_max (rows : List Row) (hne : rows ≠ []) :
    ∃ m ∈ rows, (∀ x ∈ rows, x.batch_index ≤ m.batch_index) ∧
      limit1 (orderByBatchIndexDesc rows) = [m] := by
  haveI : IsTotal Row (fun a b => a.batch_index ≥ b.batch_index) :=
    ⟨fun a b => Nat.le_total b.batch_index a.batch_index⟩
  haveI : IsTrans Row (fun a b => a.batch_index ≥ b.batch_index) :=
    ⟨fun a b c hab hbc => Nat.le_trans hbc hab⟩
  have hperm := List.perm_insertionSort (fun a b : Row => a.batch_index ≥ b.batch_index) rows
  have hsorted := List.sorted_insertionSort (fun a b : Row => a.batch_index ≥ b.batch_index) rows
  unfold orderByBatchIndexDesc
  cases hs : List.insertionSort (fun a b : Row => a.batch_index ≥ b.batch_index) rows with
  | nil =>
    rw [hs] at hperm
    exact absurd hperm.symm.eq_nil hne
  | cons m rest =>
    rw [hs] at hperm hsorted
    refine ⟨m, hperm.mem_iff.1 (List.mem_cons_self m rest), ?_, by simp [limit1]⟩
    intro x hx
    rcases List.mem_cons.1 (hperm.mem_iff.2 hx) with hxm | hxr
    · rw [hxm]
    · exact List.rel_of_sorted_cons hsorted x hxr

/-- Two rows of a table with unique `batch_index` that agree on it are the same
row. -/
theorem UniqueBatchIndex.eq_of_mem {tbl : List Row} (huniq : UniqueBatchIndex tbl) {a b : Row}
    (ha : a ∈ tbl) (hb : b ∈ tbl) (hab : a.batch_index = b.batch_index) : a = b := by
  by_contra hne
  exact List.Pairwise.forall (fun x y hxy => Ne.symm hxy) huniq ha hb hne hab

/-- With unique `batch_index`, `ORDER BY batch_index DESC LIMIT 1` returns the
row with the greatest `batch_index`. -/
theorem limit1_orderBy_eq (rows : List Row) (r : Row) (huniq : UniqueBatchIndex rows)
    (hr : r ∈ rows) (hmax : ∀ x ∈ rows, x.batch_index ≤ r.batch_index) :
    limit1 (orderByBatchIndexDesc rows) = [r] := by
  obtain ⟨m, hm, hmmax, hlim⟩ := limit1_orderBy_max rows (List.ne_nil_of_mem hr)
  have hmr : m = r :=
    huniq.eq_of_mem hm hr (Nat.le_antisymm (hmax m hm) (hmmax r hr))
  rw [hlim, hmr]

/-- The early return for empty input agrees with the loop. -/
theorem BatchInsertBridgeBatchDBTx_eq_insertLoop {σ ε : Type}
    (NamedExec : σ → InsertArgs → Option ε × σ) (dbTx : σ) (messages : List BridgeBatch) :
    BatchInsertBridgeBatchDBTx NamedExec dbTx messages = insertLoop NamedExec dbTx messages := by
  unfold BatchInsertBridgeBatchDBTx
  cases messages with
  | nil => rfl
  | cons m rest => simp

/-- The insert statement either appends the row, and then the bound
`batch_index` has its high bit clear, or it fails and stores nothing. -/
theorem execInsert_cases (fails : List Row → InsertArgs → Option DbError)
    (newId : List Row → Nat) (tbl : List Row) (a : InsertArgs) :
    (execInsert fails newId tbl a = (none, tbl ++ [insertedRow (newId tbl) a]) ∧
        a.batch_index < 2 ^ 63) ∨
      (∃ e, execInsert fails newId tbl a = (some e, tbl)) := by
  unfold execInsert
  cases hf : fails tbl a with
  | some e => exact Or.inr ⟨e, rfl⟩
  | none =>
    cases hc : convertArgs 1 (insertStatementArgs a) with
    | some e => exact Or.inr ⟨e, rfl⟩
    | none => exact Or.inl ⟨rfl, convertArgs_insert_none a hc⟩

/-- The insert loop over the table only appends rows, each with the default
status and a `batch_index` below `2 ^ 63`; if it returns nil the appended rows
are the input, column by column. -/
theorem insertLoop_execInsert_appends (fails : List Row → InsertArgs → Option DbError)
    (newId : List Row → Nat) (messages : List BridgeBatch) : ∀ tbl : List Row,
      ∃ added : List Row,
        (insertLoop (execInsert fails newId) tbl messages).2.1 = tbl ++ added ∧
        (∀ r ∈ added, r.status = BatchWithoutProof ∧ r.batch_index < 2 ^ 63) ∧
        ((insertLoop (execInsert fails newId) tbl messages).1 = none →
          added.map rowArgs = messages.map messageMap) := by
  induction messages with
  | nil => intro tbl; exact ⟨[], by simp [insertLoop]⟩
  | cons m rest ih =>
    intro tbl
    rcases execInsert_cases fails newId tbl (messageMap m) with ⟨hex, hlt⟩ | ⟨e, hex⟩
    · obtain ⟨added, happ, hst, hok⟩ := ih (tbl ++ [insertedRow (newId tbl) (messageMap m)])
      refine ⟨insertedRow (newId tbl) (messageMap m) :: added, ?_, ?_, ?_⟩
      · simp only [insertLoop, hex, happ, List.append_assoc, List.singleton_append]
      · intro r hr
        rcases List.mem_cons.1 hr with h | h
        · rw [h]; exact ⟨rfl, hlt⟩
        · exact hst r h
      · intro hnone
        simp only [insertLoop, hex] at hnone
        simp [hok hnone, rowArgs, insertedRow]
    · exact ⟨[], by simp [insertLoop, hex]⟩

/-! ## Reads by block height and by recency -/

/-- C5, amended: on a table whose rows cover pairwise disjoint block ranges and
for a height below `2 ^ 63`, `GetBridgeBatchByBlock` returns without error the
record scanned from the row whose range contains the height, both ends included
(its id, batch index, height, range and status; the hash column is not
selected), and returns (absent, no error) when no row contains the height; for
a height from `2 ^ 63` on it returns the argument-conversion error and no
record. -/
theorem GetBridgeBatchByBlock_range (tbl : List Row) (height : Nat)
    (hdisj : tbl.Pairwise NonOverlapping) :
    (height < 2 ^ 63 →
      (∀ r ∈ tbl, r.start_block_number ≤ height → height ≤ r.end_block_number →
        GetBridgeBatchByBlock none tbl height
          = (some { ID := r.id, BatchIndex := r.batch_index, Height := r.height,
                    StartBlockNumber := r.start_block_number,
                    EndBlockNumber := r.end_block_number, Status := r.status }, none)) ∧
      ((∀ r ∈ tbl, ¬ (r.start_block_number ≤ height ∧ height ≤ r.end_block_number)) →
        GetBridgeBatchByBlock none tbl height = (none, none))) ∧
    (2 ^ 63 ≤ height →
      GetBridgeBatchByBlock none tbl height = (none, some (DbError.convertArg 1))) := by
  constructor
  · intro hlt
    constructor
    · intro r hr hlo hhi
      have hone : whereBlockInRange height tbl = [r] := by
        apply filter_eq_singleton _ tbl r _ hr (by simp [hlo, hhi])
        refine hdisj.imp ?_
        intro a b hab hboth
        simp only [Bool.and_eq_true, decide_eq_true_eq, ge_iff_le] at hboth
        unfold NonOverlapping at hab
        omega
      simp [GetBridgeBatchByBlock, QueryRowx, convertArgs_lookup_lt _ hlt, hone, StructScan,
        bindColumn]
    · intro hno
      have hnil : whereBlockInRange height tbl = [] := by
        simp only [whereBlockInRange, List.filter_eq_nil_iff, Bool.and_eq_true,
          decide_eq_true_eq]
        exact hno
      simp [GetBridgeBatchByBlock, QueryRowx, convertArgs_lookup_lt _ hlt, hnil]
  · intro hge
    simp [GetBridgeBatchByBlock, QueryRowx, convertArgs_lookup_ge _ hge]

/-- Witness for C5 as amended: one row of range [100, 200]; heights 100, 150 and
200 give its record, heights 99 and 201 give absent. -/
theorem GetBridgeBatchByBlock_range_witness :
    GetBridgeBatchByBlock none [⟨1, 4, "0xaa", 10, 100, 200, 1⟩] 100
        = (some { ID := 1, BatchIndex := 4, Height := 10, StartBlockNumber := 100,
                  EndBlockNumber := 200, Status := 1 }, none) ∧
      GetBridgeBatchByBlock none [⟨1, 4, "0xaa", 10, 100, 200, 1⟩] 150
        = (some { ID := 1, BatchIndex := 4, Height := 10, StartBlockNumber := 100,
                  EndBlockNumber := 200, Status := 1 }, none) ∧
      GetBridgeBatchByBlock none [⟨1, 4, "0xaa", 10, 100, 200, 1⟩] 200
        = (some { ID := 1, BatchIndex := 4, Height := 10, StartBlockNumber := 100,
                  EndBlockNumber := 200, Status := 1 }, none) ∧
      GetBridgeBatchByBlock none [⟨1, 4, "0xaa", 10, 100, 200, 1⟩] 99 = (none, none) ∧
      GetBridgeBatchByBlock none [⟨1, 4, "0xaa", 10, 100, 200, 1⟩] 201 = (none, none) :=
  ⟨((GetBridgeBatchByBlock_range [⟨1, 4, "0xaa", 10, 100, 200, 1⟩] 100 (by decide)).1
      (by decide)).1 ⟨1, 4, "0xaa", 10, 100, 200, 1⟩ (by decide) (by decide) (by decide),
    ((GetBridgeBatchByBlock_range [⟨1, 4, "0xaa", 10, 100, 200, 1⟩] 150 (by decide)).1
      (by decide)).1 ⟨1, 4, "0xaa", 10, 100, 200, 1⟩ (by decide) (by decide) (by decide),
    ((GetBridgeBatchByBlock_range [⟨1, 4, "0xaa", 10, 100, 200, 1⟩] 200 (by decide)).1
      (by decide)).1 ⟨1, 4, "0xaa", 10, 100, 200, 1⟩ (by decide) (by decide) (by decide),
    ((GetBridgeBatchByBlock_range [⟨1, 4, "0xaa", 10, 100, 200, 1⟩] 99 (by decide)).1
      (by decide)).2 (by decide),
    ((GetBridgeBatchByBlock_range [⟨1, 4, "0xaa", 10, 100, 200, 1⟩] 201 (by decide)).1
      (by decide)).2 (by decide)⟩

/-- C5 as stated fails: the one row of the table covers [100, 200], so no row
contains the height `2 ^ 63`, the storage does not fail, and
`GetBridgeBatchByBlock` returns the argument-conversion error and not (absent,
no error). -/
theorem GetBridgeBatchByBlock_high_bit_is_error :
    List.Pairwise NonOverlapping [(⟨1, 4, "0xaa", 10, 100, 200, 1⟩ : Row)] ∧
      (∀ r ∈ [(⟨1, 4, "0xaa", 10, 100, 200, 1⟩ : Row)],
        ¬ (r.start_block_number ≤ 2 ^ 63 ∧ 2 ^ 63 ≤ r.end_block_number)) ∧
      GetBridgeBatchByBlock none [⟨1, 4, "0xaa", 10, 100, 200, 1⟩] (2 ^ 63)
        = (none, some (DbError.convertArg 1)) ∧
      GetBridgeBatchByBlock none [⟨1, 4, "0xaa", 10, 100, 200, 1⟩] (2 ^ 63) ≠ (none, none) := by
  refine ⟨by decide, by decide, by decide, by decide⟩

/-- C4: on a non-empty table with unique `batch_index`, `GetLatestBridgeBatch`
returns without error a record whose id, height, hash and block range are those
of the row with the greatest `batch_index`; every table holding the same rows in
another order gives the same result; and when the table is what a successful
`BatchInsertBridgeBatchDBTx` made of an input, the record carries the height,
hash and block range of the input record with the greatest `BatchIndex`,
wherever that record stands in the input. -/
theorem GetLatestBridgeBatch_max (tbl : List Row) (hne : tbl ≠ [])
    (huniq : UniqueBatchIndex tbl) :
    (∃ r ∈ tbl, (∀ x ∈ tbl, x.batch_index ≤ r.batch_index) ∧
      (∃ rec, GetLatestBridgeBatch none tbl = (some rec, none) ∧
        rec.ID = r.id ∧ rec.Height = r.height ∧ rec.BatchHash = r.batch_hash ∧
        rec.StartBlockNumber = r.start_block_number ∧
        rec.EndBlockNumber = r.end_block_number) ∧
      (∀ tbl2 : List Row, tbl2.Perm tbl →
        GetLatestBridgeBatch none tbl2 = GetLatestBridgeBatch none tbl)) ∧
    (∀ fails newId messages,
      (BatchInsertBridgeBatchDBTx (execInsert fails newId) [] messages).1 = none →
      tbl = (BatchInsertBridgeBatchDBTx (execInsert fails newId) [] messages).2.1 →
      ∀ m ∈ messages, (∀ x ∈ messages, x.BatchIndex ≤ m.BatchIndex) →
      ∃ rec, GetLatestBridgeBatch none tbl = (some rec, none) ∧
        rec.Height = m.Height ∧ rec.BatchHash = m.BatchHash ∧
        rec.StartBlockNumber = m.StartBlockNumber ∧
        rec.EndBlockNumber = m.EndBlockNumber) := by
  constructor
  · obtain ⟨m, hm, hmax, hlim⟩ := limit1_orderBy_max tbl hne
    refine ⟨m, hm, hmax,
      ⟨{ ID := m.id, Height := m.height, BatchHash := m.batch_hash,
         StartBlockNumber := m.start_block_number, EndBlockNumber := m.end_block_number },
        by simp [GetLatestBridgeBatch, QueryRowx, convertArgs, hlim, StructScan, bindColumn],
        rfl, rfl, rfl, rfl, rfl⟩, ?_⟩
    intro tbl2 hperm
    have huniq2 : UniqueBatchIndex tbl2 :=
      (hperm.pairwise_iff (fun hxy => Ne.symm hxy)).2 huniq
    have hlim2 : limit1 (orderByBatchIndexDesc tbl2) = [m] :=
      limit1_orderBy_eq tbl2 m huniq2 (hperm.mem_iff.2 hm)
        (fun x hx => hmax x (hperm.mem_iff.1 hx))
    simp [GetLatestBridgeBatch, hlim, hlim2]
  · intro fails newId messages hok htbl m hm hmmax
    rw [BatchInsertBridgeBatchDBTx_eq_insertLoop] at hok htbl
    obtain ⟨added, happ, _, hcols⟩ := insertLoop_execInsert_appends fails newId messages []
    rw [happ, List.nil_append] at htbl
    have hmap : tbl.map rowArgs = messages.map messageMap := by
      rw [htbl]; exact hcols hok
    have hin : messageMap m ∈ tbl.map rowArgs := by
      rw [hmap]; exact List.mem_map_of_mem messageMap hm
    obtain ⟨row, hrow, hargs⟩ := List.mem_map.1 hin
    have hrowmax : ∀ x ∈ tbl, x.batch_index ≤ row.batch_index := by
      intro x hx
      have hx2 : rowArgs x ∈ messages.map messageMap := by
        rw [← hmap]; exact List.mem_map_of_mem rowArgs hx
      obtain ⟨m2, hm2, hargs2⟩ := List.mem_map.1 hx2
      have h1 : m2.BatchIndex = x.batch_index := congrArg InsertArgs.batch_index hargs2
      have h2 : row.batch_index = m.BatchIndex := congrArg InsertArgs.batch_index hargs
      rw [← h1, h2]
      exact hmmax m2 hm2
    have hlim := limit1_orderBy_eq tbl row huniq hrow hrowmax
    exact ⟨{ ID := row.id, Height := row.height, BatchHash := row.batch_hash,
             StartBlockNumber := row.start_block_number,
             EndBlockNumber := row.end_block_number },
      by simp [GetLatestBridgeBatch, QueryRowx, convertArgs, hlim, StructScan, bindColumn],
      congrArg InsertArgs.height hargs, congrArg InsertArgs.batch_hash hargs,
      congrArg InsertArgs.start_block_number hargs,
      congrArg InsertArgs.end_block_number hargs⟩

/-- Witness for C4: three rows stored with the greatest index in the middle;
the table read in reverse order gives the same result, the record of row 9. -/
theorem GetLatestBridgeBatch_max_witness :
    GetLatestBridgeBatch none [⟨3, 5, "0xbb", 20, 201, 300, 1⟩, ⟨2, 9, "0xcc", 30, 301, 400, 0⟩,
        ⟨1, 4, "0xaa", 10, 100, 200, 0⟩]
      = GetLatestBridgeBatch none [⟨1, 4, "0xaa", 10, 100, 200, 0⟩,
        ⟨2, 9, "0xcc", 30, 301, 400, 0⟩, ⟨3, 5, "0xbb", 20, 201, 300, 1⟩] ∧
    GetLatestBridgeBatch none [⟨1, 4, "0xaa", 10, 100, 200, 0⟩,
        ⟨2, 9, "0xcc", 30, 301, 400, 0⟩, ⟨3, 5, "0xbb", 20, 201, 300, 1⟩]
      = (some { ID := 2, Height := 30, BatchHash := "0xcc", StartBlockNumber := 301,
                EndBlockNumber := 400 }, none) :=
  ⟨(GetLatestBridgeBatch_max [⟨1, 4, "0xaa", 10, 100, 200, 0⟩, ⟨2, 9, "0xcc", 30, 301, 400, 0⟩,
      ⟨3, 5, "0xbb", 20, 201, 300, 1⟩] (by decide) (by decide)).1.elim
    (fun _ h => h.2.2.2 [⟨3, 5, "0xbb", 20, 201, 300, 1⟩, ⟨2, 9, "0xcc", 30, 301, 400, 0⟩,
      ⟨1, 4, "0xaa", 10, 100, 200, 0⟩]
      (List.reverse_perm ([⟨1, 4, "0xaa", 10, 100, 200, 0⟩, ⟨2, 9, "0xcc", 30, 301, 400, 0⟩,
        ⟨3, 5, "0xbb", 20, 201, 300, 1⟩] : List Row))), by decide⟩

/-- What `GetLatestBridgeBatchWithProof` returns once the first row of its
statement is known. -/
theorem GetLatestBridgeBatchWithProof_of_first (tbl : List Row) (m : Row)
    (hlim : limit1 (orderByBatchIndexDesc (whereStatus BatchWithProof tbl)) = [m]) :
    GetLatestBridgeBatchWithProof none tbl
      = (some { ID := m.id, BatchIndex := m.batch_index, Height := m.height,
                StartBlockNumber := m.start_block_number,
                EndBlockNumber := m.end_block_number, Status := m.status }, none) := by
  simp [GetLatestBridgeBatchWithProof, QueryRowx, convertArgs, hlim, StructScan, bindColumn]

/-- Filtering by status keeps `batch_index` unique. -/
theorem UniqueBatchIndex.whereStatus {tbl : List Row} (huniq : UniqueBatchIndex tbl)
    (st : BatchStatus) : UniqueBatchIndex (Orm.whereStatus st tbl) :=
  List.Pairwise.sublist (List.filter_sublist tbl) huniq

/-- C6: on a table with unique `batch_index`, `GetLatestBridgeBatchWithProof`
returns the record scanned from the row with the greatest `batch_index` among
the rows of status `BatchWithProof`; it returns (absent, no error) when no row
has that status; whatever it returns comes from a row of status
`BatchWithProof`, so a row without proof is never returned however large its
index; and after `UpdateBridgeBatchStatusDBTx(idx, BatchWithProof)` on an
existing row, that row is the one returned exactly when `idx` is the greatest
`batch_index` among the rows of status `BatchWithProof`.  An existing row is a
stored one: the insert converts its arguments, so its `batch_index` is below
`2 ^ 63`. -/
theorem GetLatestBridgeBatchWithProof_max (tbl : List Row) (huniq : UniqueBatchIndex tbl) :
    (∀ r ∈ tbl, r.status = BatchWithProof →
      (∀ x ∈ tbl, x.status = BatchWithProof → x.batch_index ≤ r.batch_index) →
      GetLatestBridgeBatchWithProof none tbl
        = (some { ID := r.id, BatchIndex := r.batch_index, Height := r.height,
                  StartBlockNumber := r.start_block_number,
                  EndBlockNumber := r.end_block_number, Status := r.status }, none)) ∧
    ((∀ r ∈ tbl, r.status ≠ BatchWithProof) →
      GetLatestBridgeBatchWithProof none tbl = (none, none)) ∧
    (∀ fault rec, (GetLatestBridgeBatchWithProof fault tbl).1 = some rec →
      rec.Status = BatchWithProof ∧
      ∃ r ∈ tbl, r.status = BatchWithProof ∧ rec.ID = r.id ∧ rec.BatchIndex = r.batch_index) ∧
    (∀ r ∈ tbl, r.batch_index < 2 ^ 63 →
      (GetLatestBridgeBatchWithProof none
          (UpdateBridgeBatchStatusDBTx (execUpdateStatus none) tbl r.batch_index BatchWithProof).2
        = (some { ID := r.id, BatchIndex := r.batch_index, Height := r.height,
                  StartBlockNumber := r.start_block_number,
                  EndBlockNumber := r.end_block_number, Status := BatchWithProof }, none)
        ↔ ∀ x ∈ (UpdateBridgeBatchStatusDBTx (execUpdateStatus none) tbl r.batch_index
              BatchWithProof).2,
            x.status = BatchWithProof → x.batch_index ≤ r.batch_index)) := by
  have hmaxrow : ∀ (t : List Row), UniqueBatchIndex t → ∀ r ∈ t, r.status = BatchWithProof →
      (∀ x ∈ t, x.status = BatchWithProof → x.batch_index ≤ r.batch_index) →
      GetLatestBridgeBatchWithProof none t
        = (some { ID := r.id, BatchIndex := r.batch_index, Height := r.height,
                  StartBlockNumber := r.start_block_number,
                  EndBlockNumber := r.end_block_number, Status := r.status }, none) := by
    intro t ht r hr hst hmax
    apply GetLatestBridgeBatchWithProof_of_first
    apply limit1_orderBy_eq _ r (ht.whereStatus _)
    · simp [whereStatus, hr, hst]
    · intro x hx
      simp only [whereStatus, List.mem_filter, decide_eq_true_eq] at hx
      exact hmax x hx.1 hx.2
  refine ⟨hmaxrow tbl huniq, ?_, ?_, ?_⟩
  · intro hno
    have hnil : whereStatus BatchWithProof tbl = [] := by
      simp only [whereStatus, List.filter_eq_nil_iff, decide_eq_true_eq]
      exact hno
    simp [GetLatestBridgeBatchWithProof, QueryRowx, convertArgs, hnil, orderByBatchIndexDesc,
      limit1]
  · intro fault rec hrec
    unfold GetLatestBridgeBatchWithProof at hrec
    cases hq : QueryRowx fault [.int BatchWithProof]
        (limit1 (orderByBatchIndexDesc (whereStatus BatchWithProof tbl))) with
    | error err =>
      simp only [hq] at hrec
      split at hrec <;> simp at hrec
    | ok row =>
      simp only [hq, Option.some.injEq] at hrec
      subst hrec
      have hrow : row ∈ whereStatus BatchWithProof tbl := by
        cases fault with
        | some e => simp [QueryRowx] at hq
        | none =>
          by_cases hnil : whereStatus BatchWithProof tbl = []
          · simp [QueryRowx, convertArgs, hnil, orderByBatchIndexDesc, limit1] at hq
          · obtain ⟨m, hm, _, hlim⟩ := limit1_orderBy_max _ hnil
            simp only [QueryRowx, convertArgs, hlim, Except.ok.injEq] at hq
            rw [← hq]
            exact hm
      simp only [whereStatus, List.mem_filter, decide_eq_true_eq] at hrow
      exact ⟨by simp [StructScan, bindColumn, hrow.2],
        row, hrow.1, hrow.2, by simp [StructScan, bindColumn], by simp [StructScan, bindColumn]⟩
  · intro r hr hstored
    rw [update_of_lt tbl r.batch_index BatchWithProof hstored]
    show (GetLatestBridgeBatchWithProof none (tbl.map (fun x =>
        if x.batch_index = r.batch_index then { x with status := BatchWithProof } else x))
      = _) ↔ ∀ x ∈ tbl.map (fun x =>
        if x.batch_index = r.batch_index then { x with status := BatchWithProof } else x), _
    set upd : Row → Row := fun x => if x.batch_index = r.batch_index then
      { x with status := BatchWithProof } else x with hupd
    have hidx : ∀ x, (upd x).batch_index = x.batch_index := by
      intro x
      simp only [hupd]
      split <;> rfl
    have huniq2 : UniqueBatchIndex (tbl.map upd) := by
      unfold UniqueBatchIndex
      rw [List.pairwise_map]
      simpa [hidx] using huniq
    have hmem : upd r ∈ tbl.map upd := List.mem_map_of_mem upd hr
    have hupdr : upd r = { r with status := BatchWithProof } := by simp [hupd]
    constructor
    · intro hres x hx hst
      have hin : upd r ∈ whereStatus BatchWithProof (tbl.map upd) := by
        rw [whereStatus, List.mem_filter]
        exact ⟨hmem, by simp [hupdr]⟩
      have hne : whereStatus BatchWithProof (tbl.map upd) ≠ [] := List.ne_nil_of_mem hin
      obtain ⟨m, _, hmmax, hlim⟩ := limit1_orderBy_max _ hne
      rw [GetLatestBridgeBatchWithProof_of_first _ m hlim] at hres
      have hbi : m.batch_index = r.batch_index := by
        simp only [Prod.mk.injEq, Option.some.injEq, BridgeBatch.mk.injEq, and_true] at hres
        exact hres.2.1
      rw [← hbi]
      apply hmmax
      simp [whereStatus, hx, hst]
    · intro hmax
      have h := hmaxrow (tbl.map upd) huniq2 (upd r) hmem (by simp [hupdr])
        (by simpa [hidx] using hmax)
      simpa [hupdr] using h

/-- Witness for C6: rows 4 and 5 have a proof, row 9 has none and the greatest
index; row 5 is returned, and once row 9 is set to `BatchWithProof` it is row 9. -/
theorem GetLatestBridgeBatchWithProof_max_witness :
    GetLatestBridgeBatchWithProof none [⟨1, 4, "0xaa", 10, 100, 200, 1⟩,
        ⟨2, 9, "0xcc", 30, 301, 400, 0⟩, ⟨3, 5, "0xbb", 20, 201, 300, 1⟩]
      = (some { ID := 3, BatchIndex := 5, Height := 20, StartBlockNumber := 201,
                EndBlockNumber := 300, Status := 1 }, none) ∧
    GetLatestBridgeBatchWithProof none
        (UpdateBridgeBatchStatusDBTx (execUpdateStatus none) [⟨1, 4, "0xaa", 10, 100, 200, 1⟩,
          ⟨2, 9, "0xcc", 30, 301, 400, 0⟩, ⟨3, 5, "0xbb", 20, 201, 300, 1⟩] 9 BatchWithProof).2
      = (some { ID := 2, BatchIndex := 9, Height := 30, StartBlockNumber := 301,
                EndBlockNumber := 400, Status := BatchWithProof }, none) :=
  ⟨(GetLatestBridgeBatchWithProof_max [⟨1, 4, "0xaa", 10, 100, 200, 1⟩,
      ⟨2, 9, "0xcc", 30, 301, 400, 0⟩, ⟨3, 5, "0xbb", 20, 201, 300, 1⟩]
      (by decide)).1 ⟨3, 5, "0xbb", 20, 201, 300, 1⟩ (by decide) (by decide) (by decide),
    ((GetLatestBridgeBatchWithProof_max [⟨1, 4, "0xaa", 10, 100, 200, 1⟩,
      ⟨2, 9, "0xcc", 30, 301, 400, 0⟩, ⟨3, 5, "0xbb", 20, 201, 300, 1⟩]
      (by decide)).2.2.2 ⟨2, 9, "0xcc", 30, 301, 400, 0⟩ (by decide) (by decide)).2
      (by decide)⟩

/-- Every call keeps the `batch_index` of every stored row below `2 ^ 63`: an
insert stores only converted arguments and an update does not touch the
column. -/
theorem RepoOp.apply_stored (tbl : List Row) (op : RepoOp)
    (hstored : ∀ r ∈ tbl, r.batch_index < 2 ^ 63) :
    ∀ r ∈ op.apply tbl, r.batch_index < 2 ^ 63 := by
  cases op with
  | batchInsert fails newId messages =>
    simp only [RepoOp.apply]
    rw [BatchInsertBridgeBatchDBTx_eq_insertLoop]
    obtain ⟨added, happ, hadded, _⟩ := insertLoop_execInsert_appends fails newId messages tbl
    rw [happ]
    intro r hr
    rcases List.mem_append.1 hr with h | h
    · exact hstored r h
    · exact (hadded r h).2
  | getLatest f => exact hstored
  | getByBlock f h => exact hstored
  | getLatestWithProof f => exact hstored
  | getByIndex f n => exact hstored
  | updateStatus fault batchIndex status =>
    cases fault with
    | some e => simpa [RepoOp.apply, UpdateBridgeBatchStatusDBTx, execUpdateStatus] using hstored
    | none =>
      simp only [RepoOp.apply]
      rcases Nat.lt_or_ge batchIndex (2 ^ 63) with h | h
      · rw [update_of_lt tbl batchIndex status h]
        intro r hr
        obtain ⟨x, hx, hxr⟩ := List.mem_map.1 hr
        rw [← hxr]
        split
        · exact hstored x hx
        · exact hstored x hx
      · rw [update_of_ge tbl batchIndex status h]
        exact hstored

/-- Every table the repository builds from the empty one holds only rows whose
`batch_index` is below `2 ^ 63`. -/
theorem runOps_stored (ops : List RepoOp) : ∀ (tbl : List Row),
    (∀ r ∈ tbl, r.batch_index < 2 ^ 63) → ∀ r ∈ runOps tbl ops, r.batch_index < 2 ^ 63 := by
  induction ops with
  | nil => intro tbl h; exact h
  | cons op rest ih =>
    intro tbl h
    exact ih (op.apply tbl) (RepoOp.apply_stored tbl op h)

/-! ## Insert followed by lookup, and the life of the status column -/

/-- C1, amended: after `BatchInsertBridgeBatchDBTx` of a non-empty input with
pairwise different `BatchIndex` has succeeded on an empty table,
`GetBridgeBatchByIndex` of each input record's index returns without error a
record with that record's batch index, height and block range and with status
`BatchWithoutProof`; its `BatchHash` is empty, since the lookup does not select
the hash column. -/
theorem GetBridgeBatchByIndex_after_insert (fails : List Row → InsertArgs → Option DbError)
    (newId : List Row → Nat) (messages : List BridgeBatch) (_hne : messages ≠ [])
    (hdistinct : messages.Pairwise (fun a b => a.BatchIndex ≠ b.BatchIndex))
    (hok : (BatchInsertBridgeBatchDBTx (execInsert fails newId) [] messages).1 = none) :
    ∀ r ∈ messages, ∃ rec,
      GetBridgeBatchByIndex none
          (BatchInsertBridgeBatchDBTx (execInsert fails newId) [] messages).2.1 r.BatchIndex
        = (some rec, none) ∧
      rec.BatchIndex = r.BatchIndex ∧ rec.Height = r.Height ∧
      rec.StartBlockNumber = r.StartBlockNumber ∧ rec.EndBlockNumber = r.EndBlockNumber ∧
      rec.Status = BatchWithoutProof ∧ rec.BatchHash = "" := by
  intro r hr
  rw [BatchInsertBridgeBatchDBTx_eq_insertLoop] at hok ⊢
  obtain ⟨added, happ, hadded, hcols⟩ := insertLoop_execInsert_appends fails newId messages []
  have hmap := hcols hok
  rw [happ, List.nil_append]
  have huniq : UniqueBatchIndex added := by
    have h1 : (messages.map messageMap).Pairwise
        (fun a b : InsertArgs => a.batch_index ≠ b.batch_index) := by
      rw [List.pairwise_map]; exact hdistinct
    rw [← hmap, List.pairwise_map] at h1
    exact h1
  have hin : messageMap r ∈ added.map rowArgs := by
    rw [hmap]; exact List.mem_map_of_mem messageMap hr
  obtain ⟨row, hrow, hargs⟩ := List.mem_map.1 hin
  have hbi : row.batch_index = r.BatchIndex := congrArg InsertArgs.batch_index hargs
  have hh : row.height = r.Height := congrArg InsertArgs.height hargs
  have hs : row.start_block_number = r.StartBlockNumber :=
    congrArg InsertArgs.start_block_number hargs
  have he : row.end_block_number = r.EndBlockNumber :=
    congrArg InsertArgs.end_block_number hargs
  have hone : whereBatchIndex r.BatchIndex added = [row] := by
    apply filter_eq_singleton _ added row _ hrow (by simp [hbi])
    refine List.Pairwise.imp ?_ huniq
    intro a b hab hboth
    simp only [decide_eq_true_eq] at hboth
    exact hab (hboth.1.trans hboth.2.symm)
  refine ⟨{ ID := row.id, BatchIndex := row.batch_index, Height := row.height,
            StartBlockNumber := row.start_block_number,
            EndBlockNumber := row.end_block_number }, ?_, hbi, hh, hs, he, rfl, rfl⟩
  have hlt : r.BatchIndex < 2 ^ 63 := hbi ▸ (hadded row hrow).2
  simp [GetBridgeBatchByIndex, QueryRowx, convertArgs_lookup_lt _ hlt, hone, StructScan,
    bindColumn]

/-- Witness for C1 as amended: two records inserted with a storage that never
fails and numbers the rows; the second one is looked up. -/
theorem GetBridgeBatchByIndex_after_insert_witness :
    ∃ rec,
      GetBridgeBatchByIndex none
          (BatchInsertBridgeBatchDBTx (execInsert (fun _ _ => none) (fun t => t.length + 1)) []
            [{ BatchIndex := 7, BatchHash := "0xabc", Height := 10, StartBlockNumber := 100,
               EndBlockNumber := 200 },
             { BatchIndex := 8, BatchHash := "0xdef", Height := 20, StartBlockNumber := 201,
               EndBlockNumber := 300 }]).2.1 8
        = (some rec, none) ∧
      rec.BatchIndex = 8 ∧ rec.Height = 20 ∧
      rec.StartBlockNumber = 201 ∧ rec.EndBlockNumber = 300 ∧
      rec.Status = BatchWithoutProof ∧ rec.BatchHash = "" :=
  GetBridgeBatchByIndex_after_insert (fun _ _ => none) (fun t => t.length + 1)
    [{ BatchIndex := 7, BatchHash := "0xabc", Height := 10, StartBlockNumber := 100,
       EndBlockNumber := 200 },
     { BatchIndex := 8, BatchHash := "0xdef", Height := 20, StartBlockNumber := 201,
       EndBlockNumber := 300 }] (by decide) (by decide) (by decide)
    { BatchIndex := 8, BatchHash := "0xdef", Height := 20, StartBlockNumber := 201,
      EndBlockNumber := 300 } (by decide)

/-- C1 as stated fails: one record with hash `0xabc` is inserted successfully
into the empty table, and the lookup of its index returns, without error, a
record whose `BatchHash` is empty, so no returned record carries the hash. -/
theorem GetBridgeBatchByIndex_drops_hash :
    (BatchInsertBridgeBatchDBTx (execInsert (fun _ _ => none) (fun t => t.length + 1)) []
        [{ BatchIndex := 7, BatchHash := "0xabc", Height := 10, StartBlockNumber := 100,
           EndBlockNumber := 200 }]).1 = none ∧
      GetBridgeBatchByIndex none
          (BatchInsertBridgeBatchDBTx (execInsert (fun _ _ => none) (fun t => t.length + 1)) []
            [{ BatchIndex := 7, BatchHash := "0xabc", Height := 10, StartBlockNumber := 100,
               EndBlockNumber := 200 }]).2.1 7
        = (some { ID := 1, BatchIndex := 7, BatchHash := "", Height := 10,
                  StartBlockNumber := 100, EndBlockNumber := 200, Status := 0 }, none) ∧
      ¬ ∃ rec, GetBridgeBatchByIndex none
          (BatchInsertBridgeBatchDBTx (execInsert (fun _ _ => none) (fun t => t.length + 1)) []
            [{ BatchIndex := 7, BatchHash := "0xabc", Height := 10, StartBlockNumber := 100,
               EndBlockNumber := 200 }]).2.1 7 = (some rec, none) ∧
        rec.Height = 10 ∧ rec.BatchHash = "0xabc" ∧ rec.StartBlockNumber = 100 ∧
        rec.EndBlockNumber = 200 ∧ rec.Status = BatchWithoutProof := by
  refine ⟨by decide, by decide, ?_⟩
  rintro ⟨rec, hget, _, hhash, _⟩
  have hval : GetBridgeBatchByIndex none
      (BatchInsertBridgeBatchDBTx (execInsert (fun _ _ => none) (fun t => t.length + 1)) []
        [{ BatchIndex := 7, BatchHash := "0xabc", Height := 10, StartBlockNumber := 100,
           EndBlockNumber := 200 }]).2.1 7
      = (some { ID := 1, BatchIndex := 7, BatchHash := "", Height := 10,
                StartBlockNumber := 100, EndBlockNumber := 200, Status := 0 }, none) := by decide
  rw [hval] at hget
  simp only [Prod.mk.injEq, Option.some.injEq, and_true] at hget
  rw [← hget] at hhash
  exact absurd hhash (by decide)

/-- One call leaves a row with a proof as it is, provided the call is not an
update of that row's index to another status. -/
theorem RepoOp.apply_keeps_proved (tbl : List Row) (op : RepoOp) (i : Nat) (r : Row)
    (hr : tbl[i]? = some r) (hst : r.status = BatchWithProof)
    (hop : ∀ f s, op = RepoOp.updateStatus f r.batch_index s → s = BatchWithProof) :
    (op.apply tbl)[i]? = some r := by
  cases op with
  | batchInsert fails newId messages =>
    simp only [RepoOp.apply]
    rw [BatchInsertBridgeBatchDBTx_eq_insertLoop]
    obtain ⟨added, happ, _, _⟩ := insertLoop_execInsert_appends fails newId messages tbl
    have hi : i < tbl.length := by
      by_contra hge
      rw [List.getElem?_eq_none (Nat.le_of_not_lt hge)] at hr
      exact absurd hr (by simp)
    rw [happ, List.getElem?_append_left hi, hr]
  | getLatest f => exact hr
  | getByBlock f h => exact hr
  | getLatestWithProof f => exact hr
  | getByIndex f n => exact hr
  | updateStatus fault batchIndex status =>
    cases fault with
    | some e => simpa [RepoOp.apply, UpdateBridgeBatchStatusDBTx, execUpdateStatus] using hr
    | none =>
      simp only [RepoOp.apply]
      rcases Nat.lt_or_ge batchIndex (2 ^ 63) with h | h
      · rw [update_of_lt tbl batchIndex status h]
        simp only [List.getElem?_map, hr, Option.map_some', Option.some.injEq]
        split
        · next hidx =>
          subst hidx
          rw [hop none status rfl, ← hst]
        · rfl
      · rw [update_of_ge tbl batchIndex status h]
        exact hr

/-- C8, amended: every row that `BatchInsertBridgeBatchDBTx` appends to any
table, the empty one included, has status `BatchWithoutProof`, and the rows
already stored are left as they were; and a row whose status is
`BatchWithProof` is still stored unchanged, with that status, after any sequence
of repository calls in which every `UpdateBridgeBatchStatusDBTx` addressed to
its `batch_index` passes `BatchWithProof`. -/
theorem status_monotone_under_proof_updates (tbl : List Row) (ops : List RepoOp) :
    (∀ fails newId messages,
      (∀ (j : Nat) (row : Row), tbl.length ≤ j →
        ((RepoOp.batchInsert fails newId messages).apply tbl)[j]? = some row →
        row.status = BatchWithoutProof) ∧
      (∀ (j : Nat) (row : Row), tbl[j]? = some row →
        ((RepoOp.batchInsert fails newId messages).apply tbl)[j]? = some row)) ∧
    (∀ (i : Nat) (r : Row), tbl[i]? = some r → r.status = BatchWithProof →
      (∀ f s, RepoOp.updateStatus f r.batch_index s ∈ ops → s = BatchWithProof) →
      (runOps tbl ops)[i]? = some r) := by
  constructor
  · intro fails newId messages
    have happly : (RepoOp.batchInsert fails newId messages).apply tbl
        = (insertLoop (execInsert fails newId) tbl messages).2.1 := by
      simp only [RepoOp.apply]
      rw [BatchInsertBridgeBatchDBTx_eq_insertLoop]
    obtain ⟨added, happ, hadded, _⟩ := insertLoop_execInsert_appends fails newId messages tbl
    rw [happly, happ]
    constructor
    · intro j row hj hrow
      rw [List.getElem?_append_right hj] at hrow
      exact (hadded row (List.getElem?_mem hrow)).1
    · intro j row hrow
      have hj : j < tbl.length := by
        by_contra hge
        rw [List.getElem?_eq_none (Nat.le_of_not_lt hge)] at hrow
        exact absurd hrow (by simp)
      rw [List.getElem?_append_left hj, hrow]
  · intro i r hr hst hops
    induction ops generalizing tbl with
    | nil => exact hr
    | cons op rest ih =>
      have hstep := RepoOp.apply_keeps_proved tbl op i r hr hst
        (fun f s hop => hops f s (by rw [hop]; exact List.mem_cons_self _ _))
      exact ih (op.apply tbl) hstep
        (fun f s hmem => hops f s (List.mem_cons_of_mem _ hmem))

/-- Witness for C8 as amended: a record inserted into the empty table is stored
with status `BatchWithoutProof`; and the row of index 5, which has a proof,
stays in place through an insert, a read, an update of another index and an
update of index 5 to `BatchWithProof`. -/
theorem status_monotone_under_proof_updates_witness :
    ((RepoOp.batchInsert (fun _ _ => none) (fun t => t.length + 1)
          [{ BatchIndex := 6, BatchHash := "0xcc", Height := 30, StartBlockNumber := 301,
             EndBlockNumber := 400 }]).apply [])[0]?
        = some ⟨1, 6, "0xcc", 30, 301, 400, 0⟩ ∧
    (⟨1, 6, "0xcc", 30, 301, 400, 0⟩ : Row).status = BatchWithoutProof ∧
    (runOps [⟨1, 5, "0xbb", 20, 201, 300, 1⟩]
        [RepoOp.batchInsert (fun _ _ => none) (fun t => t.length + 1)
           [{ BatchIndex := 6, BatchHash := "0xcc", Height := 30, StartBlockNumber := 301,
              EndBlockNumber := 400 }],
         RepoOp.getLatestWithProof none,
         RepoOp.updateStatus none 6 BatchWithoutProof,
         RepoOp.updateStatus none 5 BatchWithProof])[0]?
      = some ⟨1, 5, "0xbb", 20, 201, 300, 1⟩ :=
  ⟨by decide,
    ((status_monotone_under_proof_updates [] []).1 (fun _ _ => none) (fun t => t.length + 1)
      [{ BatchIndex := 6, BatchHash := "0xcc", Height := 30, StartBlockNumber := 301,
         EndBlockNumber := 400 }]).1 0 ⟨1, 6, "0xcc", 30, 301, 400, 0⟩ (by decide) (by decide),
    (status_monotone_under_proof_updates [⟨1, 5, "0xbb", 20, 201, 300, 1⟩]
      [RepoOp.batchInsert (fun _ _ => none) (fun t => t.length + 1)
         [{ BatchIndex := 6, BatchHash := "0xcc", Height := 30, StartBlockNumber := 301,
            EndBlockNumber := 400 }],
       RepoOp.getLatestWithProof none,
       RepoOp.updateStatus none 6 BatchWithoutProof,
       RepoOp.updateStatus none 5 BatchWithProof]).2 0 ⟨1, 5, "0xbb", 20, 201, 300, 1⟩ rfl rfl
      (by
        intro f s hmem
        simp only [List.mem_cons, List.mem_singleton, List.not_mem_nil, or_false, reduceCtorEq,
          false_or, RepoOp.updateStatus.injEq] at hmem
        rcases hmem with h | h
        · exact absurd h.2.1 (by decide)
        · exact h.2.2)⟩

/-- C8 as stated fails: a record is inserted, set to `BatchWithProof`, and then
set back to `BatchWithoutProof` by a second `UpdateBridgeBatchStatusDBTx`, which
succeeds. -/
theorem status_reverts_on_update :
    (runOps []
        [RepoOp.batchInsert (fun _ _ => none) (fun t => t.length + 1)
           [{ BatchIndex := 5, BatchHash := "0xbb", Height := 20, StartBlockNumber := 201,
              EndBlockNumber := 300 }],
         RepoOp.updateStatus none 5 BatchWithProof])
      = [⟨1, 5, "0xbb", 20, 201, 300, BatchWithProof⟩] ∧
    (UpdateBridgeBatchStatusDBTx (execUpdateStatus none)
        [⟨1, 5, "0xbb", 20, 201, 300, BatchWithProof⟩] 5 BatchWithoutProof)
      = (none, [⟨1, 5, "0xbb", 20, 201, 300, BatchWithoutProof⟩]) ∧
    (runOps []
        [RepoOp.batchInsert (fun _ _ => none) (fun t => t.length + 1)
           [{ BatchIndex := 5, BatchHash := "0xbb", Height := 20, StartBlockNumber := 201,
              EndBlockNumber := 300 }],
         RepoOp.updateStatus none 5 BatchWithProof,
         RepoOp.updateStatus none 5 BatchWithoutProof])
      = [⟨1, 5, "0xbb", 20, 201, 300, BatchWithoutProof⟩] := by
  refine ⟨by decide, by decide, by decide⟩

end Orm
